import Mathlib

/-!
Shallow embedding of `daily_report.py`: a pipeline that collects syndication-feed
entries, fetches and text-extracts the linked articles, classifies them into
keyword-based topic reports, summarizes matched articles through an external
service, and renders non-empty reports.  External effects (feed parsing, page
download and extraction, the summarization service) are modelled as oracles
passed in as function arguments; machine behaviour that the script relies on
(`asyncio.gather` returning results in submission order, Python string
truthiness, `str.lower` / substring membership) is embedded explicitly.
-/

namespace DailyReport

/-- Configuration constant `MAX_ARTICLES_PER_FEED` from the script. -/
def MAX_ARTICLES_PER_FEED : Nat := 20

/-- Configuration constant `MAX_CONCURRENT_WORKERS` from the script. -/
def MAX_CONCURRENT_WORKERS : Nat := 10

/-- One report configuration: a name and an ordered keyword list
(an element of `REPORTS_CONFIG`). -/
structure ReportConfig where
  name : String
  keywords : List String
deriving DecidableEq

/-- The static `REPORTS_CONFIG` list from the script. -/
def REPORTS_CONFIG : List ReportConfig :=
  [⟨"농업_농협_리포트", ["농협중앙회", "농협", "농촌", "농업", "축산업"]⟩,
   ⟨"경제_리포트", ["경제", "금리", "환율", "증시", "부동산", "물가", "수출", "무역", "투자"]⟩]

/-- A feed entry as the script reads it: `entry.get("link")` and
`entry.get("title", ...)` may both be absent. -/
structure FeedEntry where
  link : Option String
  title : Option String
deriving DecidableEq

/-- A parsed feed document: `feed.feed.get("title")` (possibly absent) and
`feed.entries`. -/
structure FeedDoc where
  title : Option String
  entries : List FeedEntry
deriving DecidableEq

/-- What a successful `article.download(); article.parse()` exposes for one
link: the extracted plain text, the extracted title (empty when none found,
mirroring the library default), and the publish date already formatted as
`YYYY-MM-DD` when present. -/
structure RawArticle where
  text : String
  title : String
  publish_date : Option String
deriving DecidableEq

/-- The article dictionary built by `_fetch_and_parse_article`. -/
structure Article where
  date : String
  title : String
  source : String
  body : String
  link : String
deriving DecidableEq

/-- The per-article dictionary appended to `report_data` in `main`. -/
structure ReportItem where
  date : String
  keywords : String
  title : String
  summary : String
  link : String
  source : String
deriving DecidableEq

/-- Embedding of `_fetch_and_parse_article`.  `world` is the oracle giving the
download/extraction outcome for a link (`Except.error` models a raised
exception); `now` is the run's current date already formatted.  `if not link`
rejects both a missing and an empty link; a raised exception or empty extracted
text yields `none`; the title falls back to the entry title, then to the
literal placeholder; a missing publish date falls back to `now`. -/
def fetch_and_parse_article (world : String → Except Unit RawArticle) (now : String)
    (entry : FeedEntry) (source_name : String) : Option Article :=
  match entry.link with
  | none => none
  | some link =>
    if link = "" then none
    else
      match world link with
      | Except.error _ => none
      | Except.ok raw =>
        if raw.text = "" then none
        else some
          { date := raw.publish_date.getD now
            title := if raw.title = "" then entry.title.getD "제목 없음" else raw.title
            source := source_name
            body := raw.text
            link := link }

/-- Inner loop of `_fetch_and_parse_all_articles` over one feed's entries:
`for i, entry in enumerate(feed.entries): if i >= MAX_ARTICLES_PER_FEED: break`,
pairing every retained entry with the feed's source name. -/
def collect_feed_entries (src : String) : Nat → List FeedEntry → List (FeedEntry × String)
  | _, [] => []
  | i, e :: rest =>
    if MAX_ARTICLES_PER_FEED ≤ i then []
    else (e, src) :: collect_feed_entries src (i + 1) rest

/-- Outer loop of `_fetch_and_parse_all_articles`: each feed URL's parse outcome
is an `Except Unit FeedDoc` (`Except.error` models a raised exception, which is
caught and contributes nothing); a parsed feed contributes its capped entry
list tagged with `feed.feed.get("title", "Unknown Source")`. -/
def collect_all_entries : List (Except Unit FeedDoc) → List (FeedEntry × String)
  | [] => []
  | Except.error _ :: rest => collect_all_entries rest
  | Except.ok doc :: rest =>
      collect_feed_entries (doc.title.getD "Unknown Source") 0 doc.entries
        ++ collect_all_entries rest

/-- Embedding of `_fetch_and_parse_all_articles`: collect all entries, run the
fetch over each (the task list is built in entry order and `asyncio.gather`
returns results in submission order), then keep the truthy results. -/
def fetch_and_parse_all_articles (world : String → Except Unit RawArticle) (now : String)
    (feeds : List (Except Unit FeedDoc)) : List Article :=
  let all_entries := collect_all_entries feeds
  let results := all_entries.map (fun es => fetch_and_parse_article world now es.1 es.2)
  results.filterMap id

/-- Executable check that `n` is a leading slice of `h` (character lists),
used to embed Python's substring membership. -/
def leadsList : List Char → List Char → Bool
  | [], _ => true
  | _ :: _, [] => false
  | a :: as, b :: bs => a == b && leadsList as bs

/-- Executable scan: does `n` occur contiguously inside `h`? -/
def containsAux (n : List Char) : List Char → Bool
  | [] => n.isEmpty
  | c :: rest => leadsList n (c :: rest) || containsAux n rest

/-- Embedding of Python's `needle in hay` on strings. -/
def strContains (hay needle : String) : Bool :=
  containsAux needle.data hay.data

/-- Embedding of Python's `str.lower()`: lowercase character by character. -/
def lowerStr (s : String) : String :=
  ⟨s.data.map Char.toLower⟩

/-- The per-keyword test of `main`:
`keyword.lower() in (article['title'] + article['body']).lower()`. -/
def keyword_matches (article_text : String) (kw : String) : Bool :=
  strContains (lowerStr article_text) (lowerStr kw)

/-- The classification test of `main`: `any(... for keyword in keywords)`
applied to `article['title'] + article['body']`. -/
def article_matches (keywords : List String) (a : Article) : Bool :=
  keywords.any (fun kw => keyword_matches (a.title ++ a.body) kw)

/-- Embedding of Python's `sep.join(parts)`. -/
def joinWith (sep : String) : List String → String
  | [] => ""
  | [a] => a
  | a :: b :: rest => a ++ sep ++ joinWith sep (b :: rest)

/-- The `keywords` field computed in `main`:
`", ".join([kw for kw in keywords if kw.lower() in (...).lower()])`. -/
def matched_keywords (keywords : List String) (a : Article) : String :=
  joinWith ", " (keywords.filter (fun kw => keyword_matches (a.title ++ a.body) kw))

/-- The dictionary appended to `report_data` for one successfully summarized
article. -/
def make_report_item (keywords : List String) (a : Article) (summary : String) : ReportItem :=
  { date := a.date
    keywords := matched_keywords keywords a
    title := a.title
    summary := summary
    link := a.link
    source := a.source }

/-- The summarization loop of `main` over the filtered articles, carrying the
accumulated `report_data`.  The summarizer oracle maps an article body to the
service outcome; a raised exception (`Except.error`) is caught, logged, and the
loop continues with the next article; on success the item is appended. -/
def summarize_loop (summarize : String → Except Unit String) (keywords : List String) :
    List Article → List ReportItem → List ReportItem
  | [], report_data => report_data
  | a :: rest, report_data =>
    match summarize a.body with
    | Except.error _ => summarize_loop summarize keywords rest report_data
    | Except.ok s =>
        summarize_loop summarize keywords rest (report_data ++ [make_report_item keywords a s])

/-- One report's `report_data` in `main`: filter the shared corpus by keywords,
then run the summarization loop starting from the empty list. -/
def build_report_data (summarize : String → Except Unit String) (keywords : List String)
    (corpus : List Article) : List ReportItem :=
  summarize_loop summarize keywords (corpus.filter (article_matches keywords)) []

/-- The `for config in REPORTS_CONFIG` loop of `main`: a report whose
`report_data` is empty produces no artifact and the loop moves on; otherwise an
artifact (name paired with its rendered data) is produced. -/
def run_reports (summarize : String → Except Unit String) (corpus : List Article) :
    List ReportConfig → List (String × List ReportItem)
  | [] => []
  | cfg :: rest =>
    let data := build_report_data summarize cfg.keywords corpus
    if data = [] then run_reports summarize corpus rest
    else (cfg.name, data) :: run_reports summarize corpus rest

/-- Embedding of `if not os.getenv("OPENAI_API_KEY")`: the credential counts as
present only when set to a non-empty string. -/
def key_present (k : Option String) : Bool :=
  match k with
  | none => false
  | some s => s != ""

/-- The external world one run observes. -/
structure Env where
  openai_api_key : Option String
  feeds : List (Except Unit FeedDoc)
  world : String → Except Unit RawArticle
  summarize : String → Except Unit String
  now : String

/-- Observable outcome of one run: the process exit code, whether the fetch
stage was ever entered, and the produced report artifacts in order. -/
structure RunResult where
  exit_code : Nat
  fetch_attempted : Bool
  artifacts : List (String × List ReportItem)
deriving DecidableEq

/-- Embedding of `main`: a missing (or empty) `OPENAI_API_KEY` returns before
any fetching, and the process still exits zero (`main` plain-returns and
`asyncio.run` completes normally); otherwise the corpus is fetched once and
every report config is processed against it. -/
def main_run (env : Env) : RunResult :=
  if key_present env.openai_api_key = false then
    { exit_code := 0, fetch_attempted := false, artifacts := [] }
  else
    let corpus := fetch_and_parse_all_articles env.world env.now env.feeds
    { exit_code := 0, fetch_attempted := true
      artifacts := run_reports env.summarize corpus REPORTS_CONFIG }

/-- Specification-side description of what one feed contributes to the entry
list: nothing on failure, the first `MAX_ARTICLES_PER_FEED` entries in document
order otherwise. -/
def spec_kept_entries (f : Except Unit FeedDoc) : List (FeedEntry × String) :=
  match f with
  | Except.error _ => []
  | Except.ok doc =>
      (doc.entries.take MAX_ARTICLES_PER_FEED).map
        (fun e => (e, doc.title.getD "Unknown Source"))

/-- Specification-side predicate: `needle` occurs as a contiguous substring of
`hay`. -/
def occursIn (needle hay : String) : Prop :=
  ∃ l r, hay.data = l ++ needle.data ++ r

/-- The enumerate-with-break loop over one feed keeps exactly the first
`MAX_ARTICLES_PER_FEED - i` entries when started at index `i`. -/
theorem collect_feed_entries_eq (src : String) (entries : List FeedEntry) :
    ∀ i : Nat, collect_feed_entries src i entries
      = (entries.take (MAX_ARTICLES_PER_FEED - i)).map (fun e => (e, src)) := by
  induction entries with
  | nil => intro i; simp [collect_feed_entries]
  | cons e rest ih =>
    intro i
    by_cases h : MAX_ARTICLES_PER_FEED ≤ i
    · have h0 : MAX_ARTICLES_PER_FEED - i = 0 := Nat.sub_eq_zero_of_le h
      simp [collect_feed_entries, h, h0]
    · have h1 : MAX_ARTICLES_PER_FEED - i = (MAX_ARTICLES_PER_FEED - (i + 1)) + 1 := by omega
      rw [collect_feed_entries, if_neg h, h1, List.take_succ_cons, List.map_cons, ih]

/-- C1: a feed that parses to `M` entries contributes exactly
`min M MAX_ARTICLES_PER_FEED` entries in document order (its first `M ⊓ 20`),
and the collector's output is the concatenation of the per-feed kept lists
with feed order preserved. -/
theorem entry_cap_and_concatenation (feeds : List (Except Unit FeedDoc)) :
    collect_all_entries feeds = (feeds.map spec_kept_entries).flatten
    ∧ ∀ doc : FeedDoc,
        (spec_kept_entries (Except.ok doc)).length
          = min doc.entries.length MAX_ARTICLES_PER_FEED := by
  constructor
  · induction feeds with
    | nil => rfl
    | cons f rest ih =>
      cases f with
      | error u => simpa [collect_all_entries, spec_kept_entries] using ih
      | ok doc =>
        rw [collect_all_entries, ih, List.map_cons, List.flatten_cons]
        congr 1
        rw [collect_feed_entries_eq]
        simp [spec_kept_entries]
  · intro doc
    simp [spec_kept_entries, List.length_take, Nat.min_comm]

/-- C2: an entry with a missing or empty link, a raised download/extraction
exception, or empty extracted text produces no Article, and the corpus never
exceeds the number of collected entries. -/
theorem corpus_exclusion
    (world : String → Except Unit RawArticle) (now : String)
    (entry : FeedEntry) (src : String) (feeds : List (Except Unit FeedDoc)) :
    ((entry.link = none ∨ entry.link = some "") →
        fetch_and_parse_article world now entry src = none)
    ∧ (∀ link u, entry.link = some link → world link = Except.error u →
        fetch_and_parse_article world now entry src = none)
    ∧ (∀ link raw, entry.link = some link → world link = Except.ok raw → raw.text = "" →
        fetch_and_parse_article world now entry src = none)
    ∧ (fetch_and_parse_all_articles world now feeds).length
        ≤ (collect_all_entries feeds).length := by
  refine ⟨?_, ?_, ?_, ?_⟩
  · rintro (h | h) <;> simp [fetch_and_parse_article, h]
  · intro link u hl hw
    by_cases h0 : link = ""
    · simp [fetch_and_parse_article, hl, h0]
    · simp [fetch_and_parse_article, hl, h0, hw]
  · intro link raw hl hw ht
    by_cases h0 : link = ""
    · simp [fetch_and_parse_article, hl, h0]
    · simp [fetch_and_parse_article, hl, h0, hw, ht]
  · simp only [fetch_and_parse_all_articles]
    rw [List.filterMap_map]
    exact List.length_filterMap_le _ _

/-- Concrete fetch oracle used by witnesses: the link "bad" raises, every other
link extracts to empty text. -/
def wWorld2 : String → Except Unit RawArticle := fun l =>
  if l = "bad" then Except.error () else Except.ok ⟨"", "T", none⟩

/-- Concrete single-feed world used by the C2 witness. -/
def wFeeds2 : List (Except Unit FeedDoc) :=
  [Except.ok ⟨some "Feed", [⟨some "bad", none⟩, ⟨some "x", none⟩, ⟨none, some "t"⟩]⟩]

/-- Witness for C2 at concrete inputs: a linkless entry, a raising link, an
empty-text link, and a concrete feed list for the size bound. -/
theorem corpus_exclusion_witness :
    fetch_and_parse_article wWorld2 "2026-10-12" ⟨none, none⟩ "S" = none
    ∧ fetch_and_parse_article wWorld2 "2026-10-12" ⟨some "bad", none⟩ "S" = none
    ∧ fetch_and_parse_article wWorld2 "2026-10-12" ⟨some "x", none⟩ "S" = none
    ∧ (fetch_and_parse_all_articles wWorld2 "2026-10-12" wFeeds2).length
        ≤ (collect_all_entries wFeeds2).length :=
  ⟨(corpus_exclusion wWorld2 "2026-10-12" ⟨none, none⟩ "S" wFeeds2).1 (Or.inl rfl),
   (corpus_exclusion wWorld2 "2026-10-12" ⟨some "bad", none⟩ "S" wFeeds2).2.1 "bad" ()
     rfl (by simp [wWorld2]),
   (corpus_exclusion wWorld2 "2026-10-12" ⟨some "x", none⟩ "S" wFeeds2).2.2.1 "x"
     ⟨"", "T", none⟩ rfl (by simp [wWorld2]) rfl,
   (corpus_exclusion wWorld2 "2026-10-12" ⟨none, none⟩ "S" wFeeds2).2.2.2⟩

/-- Correctness of the leading-slice check against an append decomposition. -/
theorem leadsList_iff (n : List Char) : ∀ h, leadsList n h = true ↔ ∃ t, h = n ++ t := by
  induction n with
  | nil => intro h; simp [leadsList]
  | cons a as ih =>
    intro h
    cases h with
    | nil =>
      simp only [leadsList, List.cons_append]
      constructor
      · intro hfalse; cases hfalse
      · rintro ⟨t, ht⟩; cases ht
    | cons b bs =>
      rw [leadsList, Bool.and_eq_true, beq_iff_eq, ih]
      constructor
      · rintro ⟨rfl, t, rfl⟩
        exact ⟨t, rfl⟩
      · rintro ⟨t, ht⟩
        injection ht with h1 h2
        exact ⟨h1.symm, t, h2⟩

/-- Correctness of the substring scan against an append decomposition. -/
theorem containsAux_iff (n : List Char) : ∀ h, containsAux n h = true ↔ ∃ l r, h = l ++ n ++ r := by
  intro h
  induction h with
  | nil =>
    rw [containsAux, List.isEmpty_iff]
    constructor
    · rintro rfl; exact ⟨[], [], rfl⟩
    · rintro ⟨l, r, hl⟩
      exact (List.append_eq_nil.mp (List.append_eq_nil.mp hl.symm).1).2
  | cons c rest ih =>
    rw [containsAux, Bool.or_eq_true, leadsList_iff, ih]
    constructor
    · rintro (⟨t, ht⟩ | ⟨l, r, hl⟩)
      · exact ⟨[], t, by simp [ht]⟩
      · exact ⟨c :: l, r, by simp [hl]⟩
    · rintro ⟨l, r, hl⟩
      cases l with
      | nil => exact Or.inl ⟨r, by simpa using hl⟩
      | cons x xs =>
        injection hl with h1 h2
        exact Or.inr ⟨xs, r, h2⟩

/-- The embedded Python substring membership decides exactly contiguous
occurrence. -/
theorem strContains_iff (hay needle : String) :
    strContains hay needle = true ↔ occursIn needle hay :=
  containsAux_iff needle.data hay.data

/-- The per-keyword classification test decides case-insensitive substring
occurrence in the lowered text. -/
theorem keyword_matches_iff (text kw : String) :
    keyword_matches text kw = true ↔ occursIn (lowerStr kw) (lowerStr text) :=
  strContains_iff (lowerStr text) (lowerStr kw)

/-- C3: an Article belongs to a report's classified list exactly when it is in
the corpus and some configured keyword occurs, case-insensitively, as a
substring of its title concatenated with its body. -/
theorem keyword_membership (keywords : List String) (corpus : List Article) (a : Article) :
    a ∈ corpus.filter (article_matches keywords)
      ↔ a ∈ corpus
        ∧ ∃ kw ∈ keywords, occursIn (lowerStr kw) (lowerStr (a.title ++ a.body)) := by
  rw [List.mem_filter]
  simp only [article_matches, List.any_eq_true, keyword_matches_iff]

/-- C4: the matchedKeywords field is the comma-joined subsequence of the
config's keyword list, in list order, of exactly the keywords that pass the
case-insensitive substring test against title ++ body. -/
theorem matched_keywords_spec (keywords : List String) (a : Article) :
    ∃ sub : List String,
      List.Sublist sub keywords
      ∧ (∀ kw, kw ∈ sub
          ↔ kw ∈ keywords ∧ occursIn (lowerStr kw) (lowerStr (a.title ++ a.body)))
      ∧ matched_keywords keywords a = joinWith ", " sub := by
  refine ⟨keywords.filter (fun kw => keyword_matches (a.title ++ a.body) kw),
    List.filter_sublist keywords, ?_, rfl⟩
  intro kw
  rw [List.mem_filter, keyword_matches_iff]

/-- The summarization loop only grows its accumulator at the front. -/
theorem summarize_loop_acc (summarize : String → Except Unit String) (keywords : List String) :
    ∀ (l : List Article) (acc : List ReportItem),
      summarize_loop summarize keywords l acc
        = acc ++ summarize_loop summarize keywords l [] := by
  intro l
  induction l with
  | nil => intro acc; simp [summarize_loop]
  | cons a rest ih =>
    intro acc
    cases hs : summarize a.body with
    | error u => simp only [summarize_loop, hs]; exact ih acc
    | ok s =>
      simp only [summarize_loop, hs, List.nil_append]
      rw [ih (acc ++ [make_report_item keywords a s]), ih [make_report_item keywords a s],
        List.append_assoc]

/-- Characterization of the items the summarization loop produces from an
empty accumulator. -/
theorem summarize_loop_mem_iff (summarize : String → Except Unit String)
    (keywords : List String) :
    ∀ (l : List Article) (x : ReportItem),
      x ∈ summarize_loop summarize keywords l []
        ↔ ∃ a ∈ l, ∃ s, summarize a.body = Except.ok s
            ∧ x = make_report_item keywords a s := by
  intro l
  induction l with
  | nil => intro x; simp [summarize_loop]
  | cons a rest ih =>
    intro x
    cases hs : summarize a.body with
    | error u =>
      simp only [summarize_loop, hs]
      rw [ih]
      constructor
      · rintro ⟨b, hb, s, hok, hx⟩
        exact ⟨b, List.mem_cons_of_mem _ hb, s, hok, hx⟩
      · rintro ⟨b, hb, s, hok, hx⟩
        rcases List.mem_cons.mp hb with rfl | hb
        · rw [hs] at hok; simp at hok
        · exact ⟨b, hb, s, hok, hx⟩
    | ok s =>
      simp only [summarize_loop, hs, List.nil_append]
      rw [summarize_loop_acc, List.mem_append, ih]
      constructor
      · rintro (hx | ⟨b, hb, s2, hok, hx⟩)
        · have hx2 : x = make_report_item keywords a s := by simpa using hx
          exact ⟨a, List.mem_cons_self a rest, s, hs, hx2⟩
        · exact ⟨b, List.mem_cons_of_mem _ hb, s2, hok, hx⟩
      · rintro ⟨b, hb, s2, hok, hx⟩
        rcases List.mem_cons.mp hb with rfl | hb
        · left
          rw [hs] at hok
          injection hok with h
          subst h
          simp [hx]
        · right; exact ⟨b, hb, s2, hok, hx⟩

/-- A string is empty exactly when its character list is. -/
theorem str_eq_empty_iff (s : String) : s = "" ↔ s.data = [] := by
  cases s with
  | mk d =>
    constructor
    · intro h; rw [h]
    · intro h; simp at h; simp [h]

/-- Joining a non-empty list whose members are all non-empty strings yields a
non-empty string. -/
theorem joinWith_ne_empty (sep : String) :
    ∀ l : List String, l ≠ [] → (∀ x ∈ l, x ≠ "") → joinWith sep l ≠ "" := by
  intro l hl hx
  obtain ⟨a, t, rfl⟩ : ∃ a t, l = a :: t := by
    cases l with
    | nil => exact absurd rfl hl
    | cons a t => exact ⟨a, t, rfl⟩
  have ha : a ≠ "" := hx a (by simp)
  cases t with
  | nil => simpa [joinWith] using ha
  | cons b rest =>
    intro hcontra
    simp only [joinWith] at hcontra
    apply ha
    rw [str_eq_empty_iff] at hcontra ⊢
    rw [String.data_append, String.data_append] at hcontra
    exact (List.append_eq_nil.mp (List.append_eq_nil.mp hcontra).1).1

/-- C5: every item that enters a report of one of the configured reports has a
non-empty matchedKeywords string, and it comes from a corpus article for which
some configured keyword passes the case-insensitive substring test. -/
theorem report_item_keywords_nonempty
    (summarize : String → Except Unit String) (corpus : List Article)
    (cfg : ReportConfig) (hcfg : cfg ∈ REPORTS_CONFIG)
    (item : ReportItem)
    (hmem : item ∈ build_report_data summarize cfg.keywords corpus) :
    item.keywords ≠ ""
    ∧ ∃ a ∈ corpus, ∃ s, summarize a.body = Except.ok s
        ∧ item = make_report_item cfg.keywords a s
        ∧ ∃ kw ∈ cfg.keywords, occursIn (lowerStr kw) (lowerStr (a.title ++ a.body)) := by
  rw [build_report_data, summarize_loop_mem_iff] at hmem
  obtain ⟨a, ha, s, hok, hx⟩ := hmem
  rw [List.mem_filter] at ha
  obtain ⟨hac, hmatch⟩ := ha
  have hkw : ∃ kw ∈ cfg.keywords, keyword_matches (a.title ++ a.body) kw = true := by
    simpa [article_matches, List.any_eq_true] using hmatch
  have hne : ∀ kw ∈ cfg.keywords, kw ≠ "" := by
    fin_cases hcfg <;> decide
  constructor
  · rw [hx]
    show joinWith ", "
      (cfg.keywords.filter (fun kw => keyword_matches (a.title ++ a.body) kw)) ≠ ""
    apply joinWith_ne_empty
    · obtain ⟨kw, hkmem, hkm⟩ := hkw
      intro hnil
      have hmemf : kw ∈ cfg.keywords.filter (fun kw => keyword_matches (a.title ++ a.body) kw) :=
        List.mem_filter.mpr ⟨hkmem, hkm⟩
      rw [hnil] at hmemf
      cases hmemf
    · intro x hxf
      exact hne x (List.mem_filter.mp hxf).1
  · refine ⟨a, hac, s, hok, hx, ?_⟩
    obtain ⟨kw, hkmem, hkm⟩ := hkw
    exact ⟨kw, hkmem, (keyword_matches_iff _ _).mp hkm⟩

/-- Concrete article, summarizer, config and item for the C5 witness. -/
def wArt5 : Article := ⟨"2026-10-12", "농협 뉴스", "S", "본문", "L"⟩

/-- Concrete always-succeeding summarizer for the C5 witness. -/
def wSum5 : String → Except Unit String := fun _ => Except.ok "요약"

/-- Concrete config (the first configured report) for the C5 witness. -/
def wCfg5 : ReportConfig := ⟨"농업_농협_리포트", ["농협중앙회", "농협", "농촌", "농업", "축산업"]⟩

/-- Concrete report item for the C5 witness. -/
def wItem5 : ReportItem := make_report_item wCfg5.keywords wArt5 "요약"

/-- Witness for C5 at concrete inputs. -/
theorem report_item_keywords_nonempty_witness :
    wItem5.keywords ≠ ""
    ∧ ∃ a ∈ [wArt5], ∃ s, wSum5 a.body = Except.ok s
        ∧ wItem5 = make_report_item wCfg5.keywords a s
        ∧ ∃ kw ∈ wCfg5.keywords, occursIn (lowerStr kw) (lowerStr (a.title ++ a.body)) :=
  report_item_keywords_nonempty wSum5 [wArt5] wCfg5 (by decide) wItem5 (by decide)

/-- C6: within the summarization loop a failing summarization leaves the
accumulated report data unchanged and processing moves on to the remaining
articles with no retry; an item is appended only on a successful summary. -/
theorem summarize_failure_skips
    (summarize : String → Except Unit String) (keywords : List String)
    (a : Article) (rest : List Article) (acc : List ReportItem) :
    (∀ u, summarize a.body = Except.error u →
        summarize_loop summarize keywords (a :: rest) acc
          = summarize_loop summarize keywords rest acc)
    ∧ (∀ s, summarize a.body = Except.ok s →
        summarize_loop summarize keywords (a :: rest) acc
          = summarize_loop summarize keywords rest (acc ++ [make_report_item keywords a s])) := by
  constructor
  · intro u hu; simp only [summarize_loop, hu]
  · intro s hs; simp only [summarize_loop, hs]

/-- Concrete always-failing summarizer for witnesses. -/
def wSumFail : String → Except Unit String := fun _ => Except.error ()

/-- Concrete always-succeeding summarizer for witnesses. -/
def wSumOk : String → Except Unit String := fun _ => Except.ok "sum"

/-- Witness for C6 at concrete inputs: a failing summarizer leaves the
accumulator unchanged; a succeeding one appends exactly one item. -/
theorem summarize_failure_skips_witness :
    (summarize_loop wSumFail ["k"] [wArt5] [] = summarize_loop wSumFail ["k"] [] [])
    ∧ (summarize_loop wSumOk ["k"] [wArt5] []
        = summarize_loop wSumOk ["k"] [] ([] ++ [make_report_item ["k"] wArt5 "sum"])) :=
  ⟨(summarize_failure_skips wSumFail ["k"] wArt5 [] []).1 () rfl,
   (summarize_failure_skips wSumOk ["k"] wArt5 [] []).2 "sum" rfl⟩

/-- The report loop distributes over concatenation of config lists. -/
theorem run_reports_append (summarize : String → Except Unit String) (corpus : List Article) :
    ∀ l1 l2 : List ReportConfig,
      run_reports summarize corpus (l1 ++ l2)
        = run_reports summarize corpus l1 ++ run_reports summarize corpus l2 := by
  intro l1 l2
  induction l1 with
  | nil => simp [run_reports]
  | cons cfg rest ih =>
    by_cases h : build_report_data summarize cfg.keywords corpus = []
    · simp [run_reports, h, ih]
    · simp [run_reports, h, ih]

/-- C7: a config whose report data is empty yields no artifact and the run
proceeds to the remaining configs exactly as if that config were absent. -/
theorem empty_report_skipped
    (summarize : String → Except Unit String) (corpus : List Article)
    (pre post : List ReportConfig) (cfg : ReportConfig)
    (h : build_report_data summarize cfg.keywords corpus = []) :
    run_reports summarize corpus (pre ++ cfg :: post)
      = run_reports summarize corpus pre ++ run_reports summarize corpus post := by
  rw [run_reports_append]
  congr 1
  simp [run_reports, h]

/-- Witness for C7 at concrete inputs: an empty corpus gives every config
empty report data. -/
theorem empty_report_skipped_witness :
    run_reports wSumFail [] ([⟨"경제_리포트", ["경제"]⟩] ++ (⟨"R", ["k"]⟩ : ReportConfig) :: [])
      = run_reports wSumFail [] [⟨"경제_리포트", ["경제"]⟩] ++ run_reports wSumFail [] [] :=
  empty_report_skipped wSumFail [] [⟨"경제_리포트", ["경제"]⟩] [] ⟨"R", ["k"]⟩ rfl

/-- C8: a missing (or empty) credential aborts the run before any fetching —
no feed read, no article fetched, no artifact — and the process still exits
zero; indeed every run exits zero. -/
theorem missing_key_aborts (env : Env) :
    (key_present env.openai_api_key = false →
      main_run env = { exit_code := 0, fetch_attempted := false, artifacts := [] })
    ∧ (main_run env).exit_code = 0 := by
  constructor
  · intro h; simp [main_run, h]
  · by_cases h : key_present env.openai_api_key = false
    · simp [main_run, h]
    · simp [main_run, h]

/-- Concrete credential-less environment for the C8 witness. -/
def wEnvNoKey : Env :=
  ⟨none, [], fun _ => Except.error (), fun _ => Except.error (), "2026-10-12"⟩

/-- Witness for C8 at a concrete environment with no credential. -/
theorem missing_key_aborts_witness :
    main_run wEnvNoKey = { exit_code := 0, fetch_attempted := false, artifacts := [] }
    ∧ (main_run wEnvNoKey).exit_code = 0 :=
  ⟨(missing_key_aborts wEnvNoKey).1 rfl, (missing_key_aborts wEnvNoKey).2⟩

/-- A successfully summarized article of the processed list contributes its
item to the loop's output. -/
theorem mem_summarize_loop_of_mem (summarize : String → Except Unit String)
    (keywords : List String) (a : Article) (s : String)
    (hok : summarize a.body = Except.ok s) :
    ∀ l : List Article, a ∈ l →
      make_report_item keywords a s ∈ summarize_loop summarize keywords l [] := by
  intro l hl
  rw [summarize_loop_mem_iff]
  exact ⟨a, hl, s, hok, rfl⟩

/-- C9: reports are independent views of the same shared corpus: an article
matching two configs' vocabularies (and summarizing successfully) yields a
ReportItem in both reports, and the item built for either report preserves the
article's date, title, link and source unchanged. -/
theorem report_independence
    (summarize : String → Except Unit String) (corpus : List Article)
    (kws1 kws2 : List String) (a : Article) (s : String)
    (ha : a ∈ corpus)
    (h1 : article_matches kws1 a = true)
    (h2 : article_matches kws2 a = true)
    (hs : summarize a.body = Except.ok s) :
    make_report_item kws1 a s ∈ build_report_data summarize kws1 corpus
    ∧ make_report_item kws2 a s ∈ build_report_data summarize kws2 corpus
    ∧ (make_report_item kws1 a s).date = a.date
    ∧ (make_report_item kws1 a s).title = a.title
    ∧ (make_report_item kws1 a s).link = a.link
    ∧ (make_report_item kws1 a s).source = a.source
    ∧ (make_report_item kws2 a s).date = a.date
    ∧ (make_report_item kws2 a s).title = a.title
    ∧ (make_report_item kws2 a s).link = a.link
    ∧ (make_report_item kws2 a s).source = a.source := by
  refine ⟨?_, ?_, rfl, rfl, rfl, rfl, rfl, rfl, rfl, rfl⟩
  · rw [build_report_data]
    exact mem_summarize_loop_of_mem summarize kws1 a s hs _ (List.mem_filter.mpr ⟨ha, h1⟩)
  · rw [build_report_data]
    exact mem_summarize_loop_of_mem summarize kws2 a s hs _ (List.mem_filter.mpr ⟨ha, h2⟩)

/-- Concrete article matching both witness vocabularies for the C9 witness. -/
def wArt9 : Article := ⟨"2026-10-12", "ab", "S", "c", "L"⟩

/-- Concrete always-succeeding summarizer for the C9 witness. -/
def wSum9 : String → Except Unit String := fun _ => Except.ok "sum"

/-- Witness for C9 at concrete inputs. -/
theorem report_independence_witness :
    make_report_item ["a"] wArt9 "sum" ∈ build_report_data wSum9 ["a"] [wArt9]
    ∧ make_report_item ["b"] wArt9 "sum" ∈ build_report_data wSum9 ["b"] [wArt9]
    ∧ (make_report_item ["a"] wArt9 "sum").date = wArt9.date
    ∧ (make_report_item ["a"] wArt9 "sum").title = wArt9.title
    ∧ (make_report_item ["a"] wArt9 "sum").link = wArt9.link
    ∧ (make_report_item ["a"] wArt9 "sum").source = wArt9.source
    ∧ (make_report_item ["b"] wArt9 "sum").date = wArt9.date
    ∧ (make_report_item ["b"] wArt9 "sum").title = wArt9.title
    ∧ (make_report_item ["b"] wArt9 "sum").link = wArt9.link
    ∧ (make_report_item ["b"] wArt9 "sum").source = wArt9.source :=
  report_independence wSum9 [wArt9] ["a"] ["b"] wArt9 "sum"
    (by decide) (by decide) (by decide) rfl

/-- C10: results are gathered in submission order, so the corpus equals the
successful fetch results in collected-entry order, and two successful entries
keep their relative order in the corpus. -/
theorem corpus_order_deterministic
    (world : String → Except Unit RawArticle) (now : String)
    (feeds : List (Except Unit FeedDoc)) :
    fetch_and_parse_all_articles world now feeds
      = (collect_all_entries feeds).filterMap
          (fun es => fetch_and_parse_article world now es.1 es.2)
    ∧ ∀ (l1 l2 l3 : List (FeedEntry × String)) (j1 j2 : FeedEntry × String) (a1 a2 : Article),
        collect_all_entries feeds = l1 ++ (j1 :: (l2 ++ (j2 :: l3))) →
        fetch_and_parse_article world now j1.1 j1.2 = some a1 →
        fetch_and_parse_article world now j2.1 j2.2 = some a2 →
        fetch_and_parse_all_articles world now feeds
          = (l1.filterMap fun es => fetch_and_parse_article world now es.1 es.2)
            ++ (a1 :: ((l2.filterMap fun es => fetch_and_parse_article world now es.1 es.2)
              ++ (a2 :: (l3.filterMap fun es => fetch_and_parse_article world now es.1 es.2)))) := by
  have hmain : fetch_and_parse_all_articles world now feeds
      = (collect_all_entries feeds).filterMap
          (fun es => fetch_and_parse_article world now es.1 es.2) := by
    simp only [fetch_and_parse_all_articles]
    rw [List.filterMap_map]
    rfl
  refine ⟨hmain, ?_⟩
  intro l1 l2 l3 j1 j2 a1 a2 hsplit hf1 hf2
  rw [hmain, hsplit]
  simp [List.filterMap_append, List.filterMap_cons, hf1, hf2]

/-- Concrete always-succeeding fetch oracle for the C10 witness. -/
def wWorld10 : String → Except Unit RawArticle := fun l =>
  Except.ok ⟨"body " ++ l, "T " ++ l, none⟩

/-- Concrete one-feed world with two entries for the C10 witness. -/
def wFeeds10 : List (Except Unit FeedDoc) :=
  [Except.ok ⟨some "F", [⟨some "u1", none⟩, ⟨some "u2", none⟩]⟩]

/-- Article produced for the first witness entry. -/
def wArt10a : Article := ⟨"2026-10-12", "T u1", "F", "body u1", "u1"⟩

/-- Article produced for the second witness entry. -/
def wArt10b : Article := ⟨"2026-10-12", "T u2", "F", "body u2", "u2"⟩

/-- Witness for C10 at concrete inputs: both entries succeed and appear in the
corpus in entry order. -/
theorem corpus_order_deterministic_witness :
    fetch_and_parse_all_articles wWorld10 "2026-10-12" wFeeds10
      = (([] : List (FeedEntry × String)).filterMap
            fun es => fetch_and_parse_article wWorld10 "2026-10-12" es.1 es.2)
        ++ (wArt10a :: ((([] : List (FeedEntry × String)).filterMap
            fun es => fetch_and_parse_article wWorld10 "2026-10-12" es.1 es.2)
          ++ (wArt10b :: (([] : List (FeedEntry × String)).filterMap
            fun es => fetch_and_parse_article wWorld10 "2026-10-12" es.1 es.2)))) :=
  (corpus_order_deterministic wWorld10 "2026-10-12" wFeeds10).2
    [] [] [] (⟨some "u1", none⟩, "F") (⟨some "u2", none⟩, "F") wArt10a wArt10b
    (by decide) (by decide) (by decide)

end DailyReport
